import Mathlib

/-!
Verification of the operation-log / idempotence subsystem of
`autogpt/commands/file_operations.py`.

Strings are modelled as `List Char` (`Chars`), so that every Python string
primitive used by the source (`str.strip`, `str.replace`, `str.split(sep, 1)`,
`str.rsplit(sep, 1)`, line iteration over a file) is a small structurally
recursive Lean function that the kernel can evaluate.

The file system is modelled as an association list from path to content; the
operation log lives inside the file system at a configurable path `logPath`,
exactly as the source keeps it at `CFG.file_logger_path`.  The MD5 digest
(`hashlib.md5(...).hexdigest()`, an external library primitive) is modelled as
an explicit function parameter `md5 : Chars -> Chars`; every theorem below is
universally quantified over it, which is sound because the source only ever
compares digests for equality.

Python exceptions that the source lets escape (`ValueError` from a malformed
log line, `KeyError` from deleting an untracked path) are modelled with
`Except Unit`; exceptions that the source catches locally are modelled by the
value the handler returns.
-/

abbrev Chars := List Char

/-- The exact character set Python's `str.strip()` removes (`str.isspace()`):
U+0009-U+000D, U+001C-U+001F, space, U+0085 (NEL), U+00A0 (NBSP), U+1680,
U+2000-U+200A, U+2028, U+2029, U+202F, U+205F and U+3000. -/
def isPySpace (c : Char) : Bool :=
  let n := c.toNat
  (9 ≤ n && n ≤ 13) || (28 ≤ n && n ≤ 31) || n == 32 || n == 133 || n == 160 ||
  n == 0x1680 || (0x2000 ≤ n && n ≤ 0x200a) || n == 0x2028 || n == 0x2029 ||
  n == 0x202f || n == 0x205f || n == 0x3000

/-- Drop leading Python whitespace (the one-sided half of `str.strip()`). -/
def dropSpaces : Chars → Chars
  | [] => []
  | c :: cs => if isPySpace c then dropSpaces cs else c :: cs

/-- Python `str.strip()`: drop whitespace from both ends. -/
def pyStrip (s : Chars) : Chars :=
  (dropSpaces (dropSpaces s).reverse).reverse

/-- `leadsWith pat s` is true iff `pat` is an initial segment of `s`. -/
def leadsWith : Chars → Chars → Bool
  | [], _ => true
  | _ :: _, [] => false
  | p :: ps, c :: cs => p == c && leadsWith ps cs

/-- `containsSub pat s` is true iff `pat` occurs as a contiguous substring of `s`. -/
def containsSub (pat : Chars) : Chars → Bool
  | [] => pat.isEmpty
  | c :: cs => leadsWith pat (c :: cs) || containsSub pat cs

/-- `hasChar c s` is true iff the character `c` occurs in `s`. -/
def hasChar (c : Char) : Chars → Bool
  | [] => false
  | x :: xs => x == c || hasChar c xs

/-- Fuel-indexed worker for `pyReplace`; fuel `s.length` always suffices
because each step consumes at least one character of `s`. -/
def replaceGo (pat rep : Chars) : Nat → Chars → Chars
  | 0, s => s
  | _ + 1, [] => []
  | n + 1, c :: cs =>
    if leadsWith pat (c :: cs) then rep ++ replaceGo pat rep n ((c :: cs).drop pat.length)
    else c :: replaceGo pat rep n cs

/-- Python `s.replace(pat, rep)` (left-to-right, non-overlapping); only used
with the non-empty legacy marker pattern. -/
def pyReplace (s pat rep : Chars) : Chars :=
  replaceGo pat rep s.length s

/-- Python `s.split(sep, maxsplit=1)` restricted to the case where the
separator occurs (`none` models the `ValueError` of unpacking a 1-element
split result). -/
def splitFirst (sep : Chars) : Chars → Option (Chars × Chars)
  | [] => none
  | c :: cs =>
    if leadsWith sep (c :: cs) then some ([], (c :: cs).drop sep.length)
    else
      match splitFirst sep cs with
      | some (a, b) => some (c :: a, b)
      | none => none

/-- Python `s.rsplit(sep, maxsplit=1)` around the rightmost occurrence:
the rightmost occurrence of `sep` in `s` is the leftmost occurrence of
`sep.reverse` in `s.reverse`. -/
def rsplitLast (sep : Chars) (s : Chars) : Option (Chars × Chars) :=
  match splitFirst sep.reverse s.reverse with
  | some (a, b) => some (b.reverse, a.reverse)
  | none => none

/-- The universal-newline translation Python's text mode applies on reading
(`open(path, "r")` with the default `newline=None`): `"\r\n"` and a lone
`"\r"` both become `"\n"`. -/
def nlTranslate : Chars → Chars
  | [] => []
  | [c] => if c = '\r' then ['\n'] else [c]
  | c :: d :: cs =>
    if c = '\r' then
      if d = '\n' then '\n' :: nlTranslate cs else '\n' :: nlTranslate (d :: cs)
    else c :: nlTranslate (d :: cs)

/-- Worker for `splitLines`: split already-translated content at `'\n'`. -/
def splitLinesGo (acc : Chars) : Chars → List Chars
  | [] => [acc.reverse]
  | c :: cs => if c = '\n' then acc.reverse :: splitLinesGo [] cs else splitLinesGo (c :: acc) cs

/-- Iteration over the lines of a file as Python's `for line in log`
produces them: the content is newline-translated by text mode first, then
split at `'\n'` (the trailing `'\n'`-less remainder is kept; an empty
trailing line is harmless because blank lines are skipped). -/
def splitLines (s : Chars) : List Chars :=
  splitLinesGo [] (nlTranslate s)

/-! ## `split_file` (the ingestion windowing generator, lines 118-147) -/

/-- Fuel-indexed worker translating the `while start < content_length` loop of
`split_file`; fuel `content.length + 1` suffices whenever `overlap <
max_length` (the only regime the source terminates in). -/
def splitFileGo (content : Chars) (maxLength overlap : Nat) : Nat → Nat → List Chars
  | 0, _ => []
  | fuel + 1, start =>
    if start < content.length then
      let e := start + maxLength
      if e + overlap < content.length then
        ((content.drop start).take (e + overlap - 1 - start)) ::
          splitFileGo content maxLength overlap fuel (start + (maxLength - overlap))
      else
        let chunk := content.drop start
        if chunk.length ≤ overlap then []
        else chunk :: splitFileGo content maxLength overlap fuel (start + (maxLength - overlap))
    else []

/-- `split_file(content, max_length, overlap)`: the list of chunks the Python
generator yields.  The truncated slice bound `end + overlap - 1` is taken
verbatim from the source. -/
def split_file (content : Chars) (maxLength overlap : Nat) : List Chars :=
  splitFileGo content maxLength overlap (content.length + 1) 0

/-- Convenient literal coercions. -/
def strChars (s : String) : Chars := s.data

/-- C9 scratch example: `split_file "abcdef" 3 0` drops the character at
index 2. -/
example : split_file (strChars "abcdef") 3 0 = [strChars "ab", strChars "def"] := by decide

/-! ## Data model of the operation log -/

/-- The `Operation` literal type of the source: `"write" | "append" | "delete"`. -/
inductive Op : Type
  | write
  | append
  | delete
deriving DecidableEq, Repr

/-- One parsed log entry: the tuple `(operation, path, checksum)` yielded by
`operations_from_log`. -/
structure Entry : Type where
  op : Op
  path : Chars
  checksum : Option Chars
deriving DecidableEq, Repr

/-- The literal `"write"`. -/
def wKind : Chars := ['w', 'r', 'i', 't', 'e']

/-- The literal `"append"`. -/
def aKind : Chars := ['a', 'p', 'p', 'e', 'n', 'd']

/-- The literal `"delete"`. -/
def dKind : Chars := ['d', 'e', 'l', 'e', 't', 'e']

/-- The separator `": "` between kind and payload. -/
def sepColon : Chars := [':', ' ']

/-- The checksum marker `" #"`. -/
def sepHash : Chars := [' ', '#']

/-- The legacy decorative prefix `"File Operation Logger"` stripped from each
log line before parsing. -/
def markerChars : Chars := "File Operation Logger".data

/-- The string rendering of an operation kind. -/
def opStr : Op → Chars
  | .write => wKind
  | .append => aKind
  | .delete => dKind

/-- Parse one log line, following `operations_from_log` line by line:
strip the legacy marker, `strip()`, skip blanks (`ok none`), split on the
first `": "` (`error` models the uncaught `ValueError` when the separator is
absent), then dispatch on the stripped kind token.  A line whose kind token
is not `write`/`append`/`delete` falls through the `if`/`elif` chain and is
silently skipped (`ok none`). -/
def parseLine (line : Chars) : Except Unit (Option Entry) :=
  let l := pyStrip (pyReplace line markerChars [])
  if l = [] then .ok none
  else
    match splitFirst sepColon l with
    | none => .error ()
    | some (op₀, tail) =>
      let op := pyStrip op₀
      if op = wKind ∨ op = aKind then
        match rsplitLast sepHash tail with
        | some (p, c) =>
          .ok (some ⟨if op = wKind then .write else .append, pyStrip p, some (pyStrip c)⟩)
        | none => .ok (some ⟨if op = wKind then .write else .append, pyStrip tail, none⟩)
      else if op = dKind then .ok (some ⟨.delete, pyStrip tail, none⟩)
      else .ok none

/-- Parse a list of log lines in order; the first `ValueError` aborts the
whole read (the caller `file_operations_state` consumes the generator fully,
so a raised exception discards all partial results). -/
def parseLines : List Chars → Except Unit (List Entry)
  | [] => .ok []
  | l :: ls =>
    match parseLine l with
    | .error e => .error e
    | .ok none => parseLines ls
    | .ok (some entry) =>
      match parseLines ls with
      | .error e => .error e
      | .ok es => .ok (entry :: es)

/-- `operations_from_log(log_path)`: a missing log file (`none`) yields the
empty sequence (the `FileNotFoundError` handler), otherwise the file content
is read line by line. -/
def operations_from_log (log : Option Chars) : Except Unit (List Entry) :=
  match log with
  | none => .ok []
  | some content => parseLines (splitLines content)

/-! ## Reconstructed state (a Python `dict` modelled as an association list) -/

/-- The reconstructed state: a mapping from path to optional checksum.
Modelled as an association list observed only through `hasK`/`stateGet`,
which matches Python `dict` membership and `dict.get`. -/
abbrev St := List (Chars × Option Chars)

/-- Python `path in state`. -/
def hasK (st : St) (k : Chars) : Bool :=
  st.any (fun q => q.1 == k)

/-- Python `state.get(path)`: `None` both when the key is absent and when the
stored checksum is itself `None`. -/
def stateGet (st : St) (k : Chars) : Option Chars :=
  match st.find? (fun q => q.1 == k) with
  | some q => q.2
  | none => none

/-- Python `state[path] = checksum` (insert or overwrite). -/
def setK (st : St) (k : Chars) (v : Option Chars) : St :=
  (k, v) :: st.filter (fun q => !(q.1 == k))

/-- Python `del state[path]` after a successful membership test. -/
def eraseK (st : St) (k : Chars) : St :=
  st.filter (fun q => !(q.1 == k))

/-- One step of the reconstruction fold: `write`/`append` set the checksum,
`delete` removes the key and raises `KeyError` (modelled as `error`) when the
key is absent. -/
def applyEntry (st : St) (e : Entry) : Except Unit St :=
  match e.op with
  | .delete => if hasK st e.path then .ok (eraseK st e.path) else .error ()
  | _ => .ok (setK st e.path e.checksum)

/-- Fold a parsed entry sequence into the reconstructed state, in strict file
order, aborting at the first `KeyError`. -/
def foldSt (st : St) : List Entry → Except Unit St
  | [] => .ok st
  | e :: es =>
    match applyEntry st e with
    | .error err => .error err
    | .ok st' => foldSt st' es

/-- `file_operations_state(log_path)`: parse the log and fold it from the
empty state. -/
def file_operations_state (log : Option Chars) : Except Unit St :=
  match operations_from_log log with
  | .error e => .error e
  | .ok es => foldSt [] es

/-- `is_duplicate_operation(operation, filename, checksum)`: reconstruct the
state from the log (a parse or fold exception propagates) and apply the two
gate tests of the source verbatim. -/
def is_duplicate_operation (log : Option Chars) (operation : Op) (filename : Chars)
    (checksum : Option Chars) : Except Unit Bool :=
  match file_operations_state log with
  | .error e => .error e
  | .ok state =>
    if operation = .delete ∧ hasK state filename = false then .ok true
    else if operation = .write ∧ stateGet state filename = checksum then .ok true
    else .ok false

/-- The log line rendered by `log_operation`:
`f"{operation}: {filename}"` plus `f" #{checksum}"` when a checksum is given. -/
def renderLine (operation : Chars) (filename : Chars) (checksum : Option Chars) : Chars :=
  operation ++ sepColon ++ filename ++
    (match checksum with
     | some c => sepHash ++ c
     | none => [])

/-! ## File system model and the command surface -/

/-- The workspace file system: path to content, the operation log included at
its configured path. -/
abbrev Fs := List (Chars × Chars)

/-- Content of a file, `none` when it does not exist. -/
def readF (fs : Fs) (p : Chars) : Option Chars :=
  match fs.find? (fun q => q.1 == p) with
  | some q => some q.2
  | none => none

/-- Create or truncate-and-write a file (Python `open(p, "w")`). -/
def setF (fs : Fs) (p : Chars) (content : Chars) : Fs :=
  (p, content) :: fs.filter (fun q => !(q.1 == p))

/-- Remove a file (Python `os.remove` / the delete half of `os.rename`). -/
def delF (fs : Fs) (p : Chars) : Fs :=
  fs.filter (fun q => !(q.1 == p))

/-- Content of a file, the empty string when it does not exist
(`open(p, "a")` creates missing files). -/
def fileContent (fs : Fs) (p : Chars) : Chars :=
  (readF fs p).getD []

/-- The raw file append shared by `append_to_file` (Python `open(p, "a")`
followed by `f.write(text)`; on POSIX, text-mode writing is the identity). -/
def appendRaw (fs : Fs) (p : Chars) (text : Chars) : Fs :=
  setF fs p (fileContent fs p ++ text)

/-- `posixpath.dirname`: everything up to the last `'/'`, with trailing
slashes stripped unless the head is all slashes; the empty string when the
path has no `'/'`. -/
def pathDirname (p : Chars) : Chars :=
  match rsplitLast ['/'] p with
  | none => []
  | some (before, _) =>
    let head := before ++ ['/']
    if head.all (fun c => c == '/') then head
    else (head.reverse.dropWhile (fun c => c == '/')).reverse

/-- The message `write_to_file`/`append_to_file` return when
`os.makedirs(os.path.dirname(filename), exist_ok=True)` is called with an
empty dirname (any bare filename): the `FileNotFoundError` it raises is
caught by the surrounding handler and formatted as `f"Error: {err}"`. -/
def msgMakedirsErr : String := "Error: [Errno 2] No such file or directory: ''"

/-- `log_operation(operation, filename, checksum)`: render the entry and
append it, newline-terminated, to the log file via the `should_log=False`
path of `append_to_file`.  That call also runs `os.makedirs` first: when the
configured log path has an empty dirname the append fails, the error string
is discarded by `log_operation`, and nothing is recorded. -/
def log_operation (logPath : Chars) (fs : Fs) (operation filename : Chars)
    (checksum : Option Chars) : Fs :=
  if pathDirname logPath = [] then fs
  else appendRaw fs logPath (renderLine operation filename checksum ++ ['\n'])

/-- Result message of a successful append. -/
def msgAppendOk : String := "Text appended successfully."

/-- Result message of a successful write. -/
def msgWriteOk : String := "File written to successfully."

/-- Result message of the write duplicate gate. -/
def msgWriteDup : String := "Error: File has already been updated."

/-- `append_to_file(filename, text, should_log)`: run `os.makedirs` on the
dirname of the target (an empty dirname raises `FileNotFoundError`, caught
and returned as an error result with no mutation), append unconditionally
(never consulting the duplicate gate), then — when logging is on — re-read
the whole file in text mode (universal newlines translated), checksum it,
and record an `append` entry.  Environmental `os` failures other than the
deterministic empty-dirname one (permissions, a path component that is an
existing file) are outside the file-map model and not represented. -/
def append_to_file (md5 : Chars → Chars) (logPath : Chars) (fs : Fs)
    (filename text : Chars) (shouldLog : Bool) : String × Fs :=
  if pathDirname filename = [] then (msgMakedirsErr, fs)
  else
    let fs₁ := appendRaw fs filename text
    if shouldLog then
      let checksum := md5 (nlTranslate (fileContent fs₁ filename))
      (msgAppendOk, log_operation logPath fs₁ aKind filename (some checksum))
    else (msgAppendOk, fs₁)

/-- `write_to_file(filename, text)`: compute the checksum (`text_checksum`,
i.e. the MD5 hex digest of the text as supplied), consult the duplicate gate
(whose exceptions propagate uncaught), and on a non-duplicate run
`os.makedirs` on the dirname (an empty dirname raises, caught and returned
as an error result with no mutation), write the file and record a `write`
entry. -/
def write_to_file (md5 : Chars → Chars) (logPath : Chars) (fs : Fs)
    (filename text : Chars) : Except Unit (String × Fs) :=
  let checksum := md5 text
  match is_duplicate_operation (readF fs logPath) .write filename (some checksum) with
  | .error e => .error e
  | .ok true => .ok (msgWriteDup, fs)
  | .ok false =>
    if pathDirname filename = [] then .ok (msgMakedirsErr, fs)
    else
      let fs₁ := setF fs filename text
      .ok (msgWriteOk, log_operation logPath fs₁ wKind filename (some checksum))

/-- The not-found message of `rename_file`
(`f"File '{old_path}' not found."`). -/
def msgRenameNotFound (oldPath : Chars) : Chars :=
  strChars "File '" ++ oldPath ++ strChars "' not found."

/-- The message actually returned on the success path of `rename_file`: the
success f-string references the unbound name `old_name`, so evaluating it
raises `NameError("name 'old_name' is not defined")`, which the generic
`except Exception` handler formats. -/
def msgRenameErr (oldPath newPath : Chars) : Chars :=
  strChars "Error renaming file '" ++ oldPath ++ strChars "' to '" ++ newPath ++
    strChars "': name 'old_name' is not defined"

/-- The success message `rename_file` tries (and always fails) to build:
`f"File renamed from '{old_name}' to '{new_path}'."` would begin with this
literal text before the first interpolation. -/
def msgRenamedStart : Chars := strChars "File renamed from '"

/-- `rename_file(old_path, new_path)`: `os.rename` succeeds exactly when the
source file exists (and then replaces any file at the destination, POSIX
semantics); afterwards the success f-string raises `NameError` because
`old_name` is unbound, so the generic handler's message is returned.  A
missing source raises `FileNotFoundError`, caught by the first handler. -/
def rename_file (fs : Fs) (oldPath newPath : Chars) : Chars × Fs :=
  match readF fs oldPath with
  | some content =>
    (msgRenameErr oldPath newPath, setF (delF fs oldPath) newPath content)
  | none => (msgRenameNotFound oldPath, fs)

deriving instance DecidableEq for Except

/-! ## Scratch sanity checks of the embedding (concrete behaviours traced
against the Python semantics by hand) -/

/-- The path of the scenario log entries. -/
def aTxt : Chars := strChars "a.txt"

/-- The MD5 digest of the empty string, as it appears in the spec scenario. -/
def d41 : Chars := strChars "d41d8cd98f00b204e9800998ecf8427e"

/-- The spec's concrete write-then-delete scenario log. -/
def scenarioLog : Chars :=
  strChars "write: a.txt #d41d8cd98f00b204e9800998ecf8427e\ndelete: a.txt\n"

example : operations_from_log (some scenarioLog) =
    .ok [⟨.write, aTxt, some d41⟩, ⟨.delete, aTxt, none⟩] := by decide

example : file_operations_state (some scenarioLog) = .ok [] := by decide

example : parseLine (strChars "  write:  a.txt  ") = .ok (some ⟨.write, strChars "a.txt", none⟩) := by
  decide

example : parseLine (strChars "bogus: x") = .ok none := by decide

example : parseLine (strChars "bogus x") = .error () := by decide

example : parseLine (strChars "File Operation Loggerwrite: a.txt") =
    .ok (some ⟨.write, aTxt, none⟩) := by decide

example : parseLine (strChars "write: a #b #c") =
    .ok (some ⟨.write, strChars "a #b", some (strChars "c")⟩) := by decide

/-- A stand-in digest function for concrete scenarios (any function works for
the gate logic; the real digest's value is irrelevant to the behaviours the
counterexamples exhibit). -/
def md5Stub : Chars → Chars := fun _ => d41

/-- The log path used in concrete scenarios (in the program,
`CFG.file_logger_path` is a workspace-relative path with a directory
component). -/
def logW : Chars := strChars "autogpt/file_logger.txt"

/-- A clean write target with a directory component, for concrete scenarios. -/
def aPath : Chars := strChars "autogpt/a.txt"

example :
    write_to_file md5Stub logW [] logW (strChars "garbage") =
      .ok (msgWriteOk, [(logW, strChars "garbage" ++ renderLine wKind logW (some d41) ++ ['\n'])]) := by
  decide

example :
    write_to_file md5Stub logW
      [(logW, strChars "garbage" ++ renderLine wKind logW (some d41) ++ ['\n'])]
      logW (strChars "garbage") =
      .ok (msgWriteOk, [(logW, strChars "garbage" ++ renderLine wKind logW (some d41) ++ ['\n'])]) := by
  decide

example :
    write_to_file md5Stub logW [(logW, strChars "write: q #r")] (strChars "autogpt/p") (strChars "x") =
      .ok (msgWriteOk,
        [(logW, strChars "write: q #r" ++ renderLine wKind (strChars "autogpt/p") (some d41) ++ ['\n']),
         (strChars "autogpt/p", strChars "x")]) := by
  decide

example :
    Except.map (fun r => r.1)
      (write_to_file md5Stub logW
        [(logW, strChars "write: q #r" ++ renderLine wKind (strChars "autogpt/p") (some d41) ++ ['\n']),
         (strChars "autogpt/p", strChars "x")]
        (strChars "autogpt/p") (strChars "x")) = .ok msgWriteOk := by
  decide

/-! ## Helper lemmas about the string primitives -/

theorem leadsWith_iff (pat : Chars) : ∀ s : Chars, leadsWith pat s = true ↔ ∃ t, s = pat ++ t := by
  induction pat with
  | nil => intro s; simp [leadsWith]
  | cons p ps ih =>
    intro s
    cases s with
    | nil => simp [leadsWith]
    | cons c cs =>
      rw [leadsWith, Bool.and_eq_true, beq_iff_eq, ih]
      constructor
      · rintro ⟨rfl, t, rfl⟩
        exact ⟨t, rfl⟩
      · rintro ⟨t, h⟩
        injection h with h1 h2
        exact ⟨h1.symm, t, h2⟩

theorem containsSub_iff (pat : Chars) : ∀ s : Chars,
    containsSub pat s = true ↔ ∃ u v, s = u ++ pat ++ v := by
  intro s
  induction s with
  | nil =>
    cases pat with
    | nil => simp [containsSub]
    | cons p ps => simp [containsSub]
  | cons c cs ih =>
    rw [containsSub, Bool.or_eq_true, leadsWith_iff, ih]
    constructor
    · rintro (⟨t, h⟩ | ⟨u, v, h⟩)
      · exact ⟨[], t, by simpa using h⟩
      · exact ⟨c :: u, v, by simp [h]⟩
    · rintro ⟨u, v, h⟩
      cases u with
      | nil => exact Or.inl ⟨v, by simpa using h⟩
      | cons x u' =>
        injection h with h1 h2
        exact Or.inr ⟨u', v, h2⟩

theorem containsSub_rev_false {pat s : Chars} (h : containsSub pat s = false) :
    containsSub pat.reverse s.reverse = false := by
  by_contra hc
  rw [Bool.not_eq_false, containsSub_iff] at hc
  obtain ⟨u, v, huv⟩ := hc
  have hs : s = v.reverse ++ pat ++ u.reverse := by
    have := congrArg List.reverse huv
    simpa [List.reverse_append, List.append_assoc] using this
  have : containsSub pat s = true := (containsSub_iff pat s).2 ⟨v.reverse, u.reverse, hs⟩
  rw [h] at this
  exact Bool.false_ne_true this

theorem replaceGo_id (pat rep : Chars) : ∀ (fuel : Nat) (s : Chars),
    containsSub pat s = false → replaceGo pat rep fuel s = s := by
  intro fuel
  induction fuel with
  | zero => intro s _; rfl
  | succ n ih =>
    intro s h
    cases s with
    | nil => rfl
    | cons c cs =>
      rw [containsSub, Bool.or_eq_false_iff] at h
      rw [replaceGo, if_neg (by simp [h.1]), ih cs h.2]

theorem pyReplace_id {pat s : Chars} (rep : Chars) (h : containsSub pat s = false) :
    pyReplace s pat rep = s :=
  replaceGo_id pat rep s.length s h

theorem splitFirst_none_of (sep : Chars) : ∀ s : Chars,
    containsSub sep s = false → splitFirst sep s = none := by
  intro s
  induction s with
  | nil => intro _; rfl
  | cons c cs ih =>
    intro h
    rw [containsSub, Bool.or_eq_false_iff] at h
    rw [splitFirst, if_neg (by simp [h.1]), ih h.2]

theorem splitFirst_at {c₁ c₂ : Char} (hne : c₁ ≠ c₂) :
    ∀ a b : Chars, containsSub [c₁, c₂] a = false →
      splitFirst [c₁, c₂] (a ++ c₁ :: c₂ :: b) = some (a, b) := by
  intro a
  induction a with
  | nil =>
    intro b _
    simp [splitFirst, leadsWith]
  | cons x a' ih =>
    intro b ha
    rw [containsSub, Bool.or_eq_false_iff] at ha
    obtain ⟨hl, hc⟩ := ha
    have hlead : leadsWith [c₁, c₂] (x :: (a' ++ c₁ :: c₂ :: b)) = false := by
      cases a' with
      | nil =>
        have h2 : (c₂ == c₁) = false := by
          simp only [beq_eq_false_iff_ne]
          exact Ne.symm hne
        simp [leadsWith, h2]
      | cons y a'' =>
        simp only [leadsWith] at hl ⊢
        simpa using hl
    rw [List.cons_append, splitFirst, if_neg (by simp [hlead]), ih b hc]

theorem rsplitLast_at {c₁ c₂ : Char} (hne : c₁ ≠ c₂) (a b : Chars)
    (hb : containsSub [c₁, c₂] b = false) :
    rsplitLast [c₁, c₂] (a ++ c₁ :: c₂ :: b) = some (a, b) := by
  have hrev : (a ++ c₁ :: c₂ :: b).reverse = b.reverse ++ c₂ :: c₁ :: a.reverse := by
    simp [List.reverse_append, List.append_assoc]
  have hbrev : containsSub [c₂, c₁] b.reverse = false := by
    have := containsSub_rev_false hb
    simpa using this
  rw [rsplitLast]
  have : ([c₁, c₂] : Chars).reverse = [c₂, c₁] := rfl
  rw [this, hrev, splitFirst_at (Ne.symm hne) b.reverse a.reverse hbrev]
  simp

theorem rsplitLast_none {sep s : Chars} (h : containsSub sep s = false) :
    rsplitLast sep s = none := by
  rw [rsplitLast, splitFirst_none_of sep.reverse s.reverse (containsSub_rev_false h)]

theorem splitLinesGo_ne_nil : ∀ (s : Chars) (acc : Chars), splitLinesGo acc s ≠ [] := by
  intro s
  induction s with
  | nil => intro acc; simp [splitLinesGo]
  | cons c cs ih =>
    intro acc
    rw [splitLinesGo]
    by_cases h : c = '\n'
    · simp [h]
    · simpa [h] using ih (c :: acc)

theorem getLast?_append_right {α : Type} : ∀ (a b : List α), b ≠ [] → (a ++ b).getLast? = b.getLast? := by
  intro a
  induction a with
  | nil => intro b _; rfl
  | cons x a' ih =>
    intro b hb
    have hne : a' ++ b ≠ [] := by
      intro h
      exact hb (List.append_eq_nil.mp h).2
    rw [List.cons_append]
    cases hab : a' ++ b with
    | nil => exact absurd hab hne
    | cons y l =>
      rw [List.getLast?_cons_cons, ← hab, ih b hb]

theorem splitLinesGo_no_nl : ∀ (body : Chars) (acc rest : Chars), hasChar '\n' body = false →
    splitLinesGo acc (body ++ '\n' :: rest) = (acc.reverse ++ body) :: splitLinesGo [] rest := by
  intro body
  induction body with
  | nil => intro acc rest _; simp [splitLinesGo]
  | cons c body' ih =>
    intro acc rest h
    rw [hasChar, Bool.or_eq_false_iff] at h
    have hc : ¬ c = '\n' := by simpa using h.1
    rw [List.cons_append, splitLinesGo, if_neg hc, ih (c :: acc) rest h.2]
    simp

theorem splitLinesGo_end_no_nl : ∀ (body : Chars) (acc : Chars), hasChar '\n' body = false →
    splitLinesGo acc body = [acc.reverse ++ body] := by
  intro body
  induction body with
  | nil => intro acc _; simp [splitLinesGo]
  | cons c body' ih =>
    intro acc h
    rw [hasChar, Bool.or_eq_false_iff] at h
    have hc : ¬ c = '\n' := by simpa using h.1
    rw [splitLinesGo, if_neg hc, ih (c :: acc) h.2]
    simp

theorem splitLinesGo_append_term : ∀ (xs : Chars) (acc s : Chars), xs.getLast? = some '\n' →
    splitLinesGo acc (xs ++ s) = (splitLinesGo acc xs).dropLast ++ splitLinesGo [] s := by
  intro xs
  induction xs with
  | nil => intro acc s h; simp at h
  | cons c xs' ih =>
    intro acc s h
    cases xs' with
    | nil =>
      simp only [List.getLast?_singleton, Option.some.injEq] at h
      subst h
      simp [splitLinesGo]
    | cons y ys =>
      have hlast : (y :: ys).getLast? = some '\n' := by
        rwa [List.getLast?_cons_cons] at h
      by_cases hc : c = '\n'
      · subst hc
        rw [List.cons_append, splitLinesGo, if_pos rfl, splitLinesGo, if_pos rfl,
          ih [] s hlast]
        have hne := splitLinesGo_ne_nil (y :: ys) []
        rw [List.dropLast_cons_of_ne_nil hne]
        simp
      · rw [List.cons_append, splitLinesGo, if_neg hc, splitLinesGo, if_neg hc,
          ih (c :: acc) s hlast]

theorem splitLinesGo_last_nl : ∀ (xs : Chars) (acc : Chars), xs.getLast? = some '\n' →
    (splitLinesGo acc xs).getLast? = some [] := by
  intro xs
  induction xs with
  | nil => intro acc h; simp at h
  | cons c xs' ih =>
    intro acc h
    cases xs' with
    | nil =>
      simp only [List.getLast?_singleton, Option.some.injEq] at h
      subst h
      simp [splitLinesGo]
    | cons y ys =>
      have hlast : (y :: ys).getLast? = some '\n' := by
        rwa [List.getLast?_cons_cons] at h
      by_cases hc : c = '\n'
      · subst hc
        rw [splitLinesGo, if_pos rfl]
        have hne := splitLinesGo_ne_nil (y :: ys) ([] : Chars)
        have hstep : (List.reverse acc :: splitLinesGo [] (y :: ys)).getLast? =
            (splitLinesGo [] (y :: ys)).getLast? := by
          simpa using getLast?_append_right [List.reverse acc] (splitLinesGo [] (y :: ys)) hne
        rw [hstep]
        exact ih [] hlast
      · rw [splitLinesGo, if_neg hc]
        exact ih (c :: acc) hlast

theorem getLast?_cons_of_ne_nil {α : Type} (x : α) (l : List α) (h : l ≠ []) :
    (x :: l).getLast? = l.getLast? := by
  simpa using getLast?_append_right [x] l h

theorem nlTranslate_cons_ne {c : Char} (cs : Chars) (h : c ≠ '\r') :
    nlTranslate (c :: cs) = c :: nlTranslate cs := by
  cases cs with
  | nil => simp [nlTranslate, h]
  | cons d cs' => simp [nlTranslate, h]

theorem nlTranslate_cr_nl (cs : Chars) : nlTranslate ('\r' :: '\n' :: cs) = '\n' :: nlTranslate cs := by
  simp [nlTranslate]

theorem nlTranslate_cr_ne {d : Char} (cs : Chars) (h : d ≠ '\n') :
    nlTranslate ('\r' :: d :: cs) = '\n' :: nlTranslate (d :: cs) := by
  simp [nlTranslate, h]

theorem nlTranslate_ne_nil {s : Chars} (h : s ≠ []) : nlTranslate s ≠ [] := by
  cases s with
  | nil => exact absurd rfl h
  | cons c cs =>
    cases cs with
    | nil =>
      by_cases hc : c = '\r' <;> simp [nlTranslate, hc]
    | cons d cs' =>
      by_cases hc : c = '\r'
      · subst hc
        by_cases hd : d = '\n' <;> simp [nlTranslate, hd]
      · simp [nlTranslate, hc]

theorem nlTranslate_no_cr : ∀ s : Chars, hasChar '\r' s = false → nlTranslate s = s := by
  intro s
  induction s with
  | nil => intro _; rfl
  | cons c cs ih =>
    intro h
    rw [hasChar, Bool.or_eq_false_iff] at h
    have hc : c ≠ '\r' := by simpa using h.1
    rw [nlTranslate_cons_ne cs hc, ih h.2]

theorem nlTranslate_append_aux : ∀ (n : Nat) (a s : Chars), a.length ≤ n →
    a.getLast? = some '\n' → nlTranslate (a ++ s) = nlTranslate a ++ nlTranslate s := by
  intro n
  induction n with
  | zero =>
    intro a s hn hl
    have ha : a = [] := List.length_eq_zero.mp (Nat.le_zero.mp hn)
    subst ha
    simp at hl
  | succ n ih =>
    intro a s hn hl
    cases a with
    | nil => simp at hl
    | cons c a' =>
      cases a' with
      | nil =>
        simp only [List.getLast?_singleton, Option.some.injEq] at hl
        subst hl
        rw [show (['\n'] : Chars) ++ s = '\n' :: s from rfl, nlTranslate_cons_ne _ (by decide)]
        rfl
      | cons d a'' =>
        have hl' : (d :: a'').getLast? = some '\n' := by
          rwa [List.getLast?_cons_cons] at hl
        have hn' : (d :: a'').length ≤ n := by
          simpa using Nat.lt_succ_iff.mp (by simpa using hn)
        by_cases hc : c = '\r'
        · subst hc
          by_cases hd : d = '\n'
          · subst hd
            cases a'' with
            | nil =>
              rw [show ('\r' :: '\n' :: ([] : Chars)) ++ s = '\r' :: '\n' :: s from rfl,
                nlTranslate_cr_nl, nlTranslate_cr_nl]
              rfl
            | cons e a₃ =>
              have hl₂ : (e :: a₃).getLast? = some '\n' := by
                rwa [List.getLast?_cons_cons] at hl'
              have hn₂ : (e :: a₃).length ≤ n := Nat.le_of_succ_le hn'
              rw [show ('\r' :: '\n' :: e :: a₃) ++ s = '\r' :: '\n' :: ((e :: a₃) ++ s) from rfl,
                nlTranslate_cr_nl, ih (e :: a₃) s hn₂ hl₂, nlTranslate_cr_nl]
              rfl
          · rw [show ('\r' :: d :: a'') ++ s = '\r' :: d :: (a'' ++ s) from rfl,
              nlTranslate_cr_ne _ hd,
              show (d : Char) :: (a'' ++ s) = (d :: a'') ++ s from rfl,
              ih (d :: a'') s hn' hl', nlTranslate_cr_ne _ hd]
            rfl
        · rw [show (c :: d :: a'') ++ s = c :: ((d :: a'') ++ s) from rfl,
            nlTranslate_cons_ne _ hc, ih (d :: a'') s hn' hl', nlTranslate_cons_ne _ hc]
          rfl

theorem nlTranslate_append_term (a s : Chars) (h : a.getLast? = some '\n') :
    nlTranslate (a ++ s) = nlTranslate a ++ nlTranslate s :=
  nlTranslate_append_aux a.length a s (Nat.le_refl _) h

theorem nlTranslate_last_aux : ∀ (n : Nat) (a : Chars), a.length ≤ n →
    a.getLast? = some '\n' → (nlTranslate a).getLast? = some '\n' := by
  intro n
  induction n with
  | zero =>
    intro a hn hl
    have ha : a = [] := List.length_eq_zero.mp (Nat.le_zero.mp hn)
    subst ha
    simp at hl
  | succ n ih =>
    intro a hn hl
    cases a with
    | nil => simp at hl
    | cons c a' =>
      cases a' with
      | nil =>
        simp only [List.getLast?_singleton, Option.some.injEq] at hl
        subst hl
        rfl
      | cons d a'' =>
        have hl' : (d :: a'').getLast? = some '\n' := by
          rwa [List.getLast?_cons_cons] at hl
        have hn' : (d :: a'').length ≤ n := by
          simpa using Nat.lt_succ_iff.mp (by simpa using hn)
        by_cases hc : c = '\r'
        · subst hc
          by_cases hd : d = '\n'
          · subst hd
            cases a'' with
            | nil => rfl
            | cons e a₃ =>
              have hl₂ : (e :: a₃).getLast? = some '\n' := by
                rwa [List.getLast?_cons_cons] at hl'
              have hn₂ : (e :: a₃).length ≤ n := Nat.le_of_succ_le hn'
              rw [nlTranslate_cr_nl,
                getLast?_cons_of_ne_nil _ _ (nlTranslate_ne_nil (by simp))]
              exact ih (e :: a₃) hn₂ hl₂
          · rw [nlTranslate_cr_ne _ hd,
              getLast?_cons_of_ne_nil _ _ (nlTranslate_ne_nil (by simp))]
            exact ih (d :: a'') hn' hl'
        · rw [nlTranslate_cons_ne _ hc,
            getLast?_cons_of_ne_nil _ _ (nlTranslate_ne_nil (by simp))]
          exact ih (d :: a'') hn' hl'

theorem nlTranslate_last_nl (a : Chars) (h : a.getLast? = some '\n') :
    (nlTranslate a).getLast? = some '\n' :=
  nlTranslate_last_aux a.length a (Nat.le_refl _) h

theorem dropSpaces_id {s : Chars} (h : ∀ c, s.head? = some c → isPySpace c = false) :
    dropSpaces s = s := by
  cases s with
  | nil => rfl
  | cons c cs => rw [dropSpaces, if_neg (by simp [h c rfl])]

theorem pyStrip_id {s : Chars} (h1 : ∀ c, s.head? = some c → isPySpace c = false)
    (h2 : ∀ c, s.getLast? = some c → isPySpace c = false) : pyStrip s = s := by
  rw [pyStrip, dropSpaces_id h1, dropSpaces_id, List.reverse_reverse]
  intro c hc
  rw [List.head?_reverse] at hc
  exact h2 c hc

theorem head?_append_of_ne_nil {α : Type} (a b : List α) (h : a ≠ []) :
    (a ++ b).head? = a.head? := by
  cases a with
  | nil => exact absurd rfl h
  | cons x xs => rfl

theorem hasChar_append (c : Char) : ∀ a b : Chars,
    hasChar c (a ++ b) = (hasChar c a || hasChar c b) := by
  intro a b
  induction a with
  | nil => simp [hasChar]
  | cons x xs ih => rw [List.cons_append, hasChar, hasChar, ih, Bool.or_assoc]

/-- Well-formedness of a path or checksum token for the log line format:
non-empty, no surrounding Python whitespace (so `strip()` leaves it alone),
no occurrence of the checksum marker `" #"`, and no line terminator (`'\n'`
or `'\r'`; either would split the rendered line on text-mode read-back). -/
def goodName (s : Chars) : Bool :=
  !s.isEmpty &&
  (match s.head? with
   | some c => !isPySpace c
   | none => true) &&
  (match s.getLast? with
   | some c => !isPySpace c
   | none => true) &&
  !containsSub sepHash s &&
  !hasChar '\n' s &&
  !hasChar '\r' s

theorem goodName_ne_nil {s : Chars} (h : goodName s = true) : s ≠ [] := by
  intro hs
  subst hs
  simp [goodName] at h

theorem goodName_head {s : Chars} (h : goodName s = true) :
    ∀ c, s.head? = some c → isPySpace c = false := by
  intro c hc
  rw [goodName, Bool.and_eq_true, Bool.and_eq_true, Bool.and_eq_true, Bool.and_eq_true,
    Bool.and_eq_true] at h
  have := h.1.1.1.1.2
  rw [hc] at this
  simpa using this

theorem goodName_last {s : Chars} (h : goodName s = true) :
    ∀ c, s.getLast? = some c → isPySpace c = false := by
  intro c hc
  rw [goodName, Bool.and_eq_true, Bool.and_eq_true, Bool.and_eq_true, Bool.and_eq_true,
    Bool.and_eq_true] at h
  have := h.1.1.1.2
  rw [hc] at this
  simpa using this

theorem goodName_strip {s : Chars} (h : goodName s = true) : pyStrip s = s :=
  pyStrip_id (goodName_head h) (goodName_last h)

theorem goodName_no_hash {s : Chars} (h : goodName s = true) : containsSub sepHash s = false := by
  rw [goodName, Bool.and_eq_true, Bool.and_eq_true, Bool.and_eq_true, Bool.and_eq_true,
    Bool.and_eq_true] at h
  simpa using h.1.1.2

theorem goodName_no_nl {s : Chars} (h : goodName s = true) : hasChar '\n' s = false := by
  rw [goodName, Bool.and_eq_true, Bool.and_eq_true, Bool.and_eq_true, Bool.and_eq_true,
    Bool.and_eq_true] at h
  simpa using h.1.2

theorem goodName_no_cr {s : Chars} (h : goodName s = true) : hasChar '\r' s = false := by
  rw [goodName, Bool.and_eq_true, Bool.and_eq_true, Bool.and_eq_true, Bool.and_eq_true,
    Bool.and_eq_true] at h
  simpa using h.2

/-- The suffix of a rendered log line after the path. -/
def chkSuffix : Option Chars → Chars
  | some c => sepHash ++ c
  | none => []

theorem renderLine_eq (operation path : Chars) (chk : Option Chars) :
    renderLine operation path chk = operation ++ ':' :: ' ' :: (path ++ chkSuffix chk) := by
  cases chk <;> simp [renderLine, chkSuffix, sepColon, List.append_assoc]

theorem opStr_ne_nil (op : Op) : opStr op ≠ [] := by
  cases op <;> simp [opStr, wKind, aKind, dKind]

theorem renderLine_head? (op : Op) (path : Chars) (chk : Option Chars) :
    (renderLine (opStr op) path chk).head? = (opStr op).head? := by
  rw [renderLine_eq]
  exact head?_append_of_ne_nil _ _ (opStr_ne_nil op)

theorem renderLine_head_not_space (op : Op) (path : Chars) (chk : Option Chars) :
    ∀ c, (renderLine (opStr op) path chk).head? = some c → isPySpace c = false := by
  intro c hc
  rw [renderLine_head? op path chk] at hc
  cases op <;> (simp [opStr, wKind, aKind, dKind] at hc; subst hc; decide)

theorem renderLine_last_not_space (op : Op) (path : Chars) (chk : Option Chars)
    (hp : goodName path = true) (hc : ∀ c, chk = some c → goodName c = true) :
    ∀ c, (renderLine (opStr op) path chk).getLast? = some c → isPySpace c = false := by
  intro c hlast
  cases chk with
  | none =>
    rw [renderLine_eq] at hlast
    have h1 : (opStr op ++ ':' :: ' ' :: (path ++ chkSuffix none)).getLast? = path.getLast? := by
      rw [getLast?_append_right _ _ (by simp), chkSuffix, List.append_nil]
      have : (':' :: ' ' :: path).getLast? = path.getLast? := by
        cases path with
        | nil => exact absurd rfl (goodName_ne_nil hp)
        | cons x xs => rw [List.getLast?_cons_cons]; rfl
      simpa using this
    rw [h1] at hlast
    exact goodName_last hp c hlast
  | some k =>
    have hk := hc k rfl
    rw [renderLine_eq] at hlast
    have h1 : (opStr op ++ ':' :: ' ' :: (path ++ chkSuffix (some k))).getLast? = k.getLast? := by
      rw [getLast?_append_right _ _ (by simp)]
      have h2 : (path ++ chkSuffix (some k)).getLast? = k.getLast? := by
        rw [chkSuffix]
        have : (path ++ (sepHash ++ k)).getLast? = (sepHash ++ k).getLast? :=
          getLast?_append_right _ _ (by simp [sepHash])
        rw [this, getLast?_append_right _ _ (goodName_ne_nil hk)]
      have h3 : (':' :: ' ' :: (path ++ chkSuffix (some k))).getLast? =
          (path ++ chkSuffix (some k)).getLast? := by
        cases hpc : path ++ chkSuffix (some k) with
        | nil => simp [chkSuffix, sepHash] at hpc
        | cons x xs => rw [List.getLast?_cons_cons, List.getLast?_cons_cons]
      rw [h3, h2]
    rw [h1] at hlast
    exact goodName_last hk c hlast

/-- A rendered log line parses back to exactly the entry that was logged,
provided the path and checksum are well formed and the line does not contain
the legacy marker. -/
theorem parseLine_render (op : Op) (path : Chars) (chk : Option Chars)
    (hp : goodName path = true)
    (hc : ∀ c, chk = some c → goodName c = true)
    (hd : op = Op.delete → chk = none)
    (hm : containsSub markerChars (renderLine (opStr op) path chk) = false) :
    parseLine (renderLine (opStr op) path chk) = .ok (some ⟨op, path, chk⟩) := by
  have hrepl : pyReplace (renderLine (opStr op) path chk) markerChars [] =
      renderLine (opStr op) path chk := pyReplace_id [] hm
  have hstrip : pyStrip (renderLine (opStr op) path chk) = renderLine (opStr op) path chk :=
    pyStrip_id (renderLine_head_not_space op path chk)
      (renderLine_last_not_space op path chk hp hc)
  have hne : renderLine (opStr op) path chk ≠ [] := by
    rw [renderLine_eq]
    intro h
    exact opStr_ne_nil op (List.append_eq_nil.mp h).1
  have hsplit : splitFirst sepColon (renderLine (opStr op) path chk) =
      some (opStr op, path ++ chkSuffix chk) := by
    rw [renderLine_eq]
    have hsep : sepColon = [':', ' '] := rfl
    rw [hsep]
    exact splitFirst_at (by decide) (opStr op) _ (by cases op <;> decide)
  have hops : pyStrip (opStr op) = opStr op := by cases op <;> decide
  simp only [parseLine, hrepl, hstrip, if_neg hne, hsplit, hops]
  cases op with
  | write =>
    rw [if_pos (show opStr Op.write = wKind ∨ opStr Op.write = aKind from Or.inl rfl)]
    cases chk with
    | some k =>
      have hrs : rsplitLast sepHash (path ++ chkSuffix (some k)) = some (path, k) := by
        have hsuffix : path ++ chkSuffix (some k) = path ++ ' ' :: '#' :: k := by
          simp [chkSuffix, sepHash]
        have hsep : sepHash = [' ', '#'] := rfl
        rw [hsuffix, hsep]
        exact rsplitLast_at (by decide) path k (goodName_no_hash (hc k rfl))
      rw [hrs]
      simp [goodName_strip hp, goodName_strip (hc k rfl), opStr]
    | none =>
      have hrs : rsplitLast sepHash (path ++ chkSuffix none) = none := by
        have hsuffix : path ++ chkSuffix none = path := by simp [chkSuffix]
        rw [hsuffix]
        exact rsplitLast_none (goodName_no_hash hp)
      rw [hrs]
      simp [chkSuffix, goodName_strip hp, opStr]
  | append =>
    rw [if_pos (show opStr Op.append = wKind ∨ opStr Op.append = aKind from Or.inr rfl)]
    cases chk with
    | some k =>
      have hrs : rsplitLast sepHash (path ++ chkSuffix (some k)) = some (path, k) := by
        have hsuffix : path ++ chkSuffix (some k) = path ++ ' ' :: '#' :: k := by
          simp [chkSuffix, sepHash]
        have hsep : sepHash = [' ', '#'] := rfl
        rw [hsuffix, hsep]
        exact rsplitLast_at (by decide) path k (goodName_no_hash (hc k rfl))
      rw [hrs, if_neg (show ¬ opStr Op.append = wKind by decide)]
      simp [goodName_strip hp, goodName_strip (hc k rfl)]
    | none =>
      have hrs : rsplitLast sepHash (path ++ chkSuffix none) = none := by
        have hsuffix : path ++ chkSuffix none = path := by simp [chkSuffix]
        rw [hsuffix]
        exact rsplitLast_none (goodName_no_hash hp)
      rw [hrs, if_neg (show ¬ opStr Op.append = wKind by decide)]
      simp [chkSuffix, goodName_strip hp]
  | delete =>
    have hchk := hd rfl
    subst hchk
    rw [if_neg (show ¬ (opStr Op.delete = wKind ∨ opStr Op.delete = aKind) by decide),
      if_pos (show opStr Op.delete = dKind from rfl)]
    simp [chkSuffix, goodName_strip hp]

theorem parseLine_blank : parseLine [] = .ok none := by decide

theorem parseLines_append_blank : ∀ dl : List Chars, parseLines (dl ++ [[]]) = parseLines dl := by
  intro dl
  induction dl with
  | nil => decide
  | cons l ls ih =>
    rw [List.cons_append, parseLines, parseLines]
    cases hp : parseLine l with
    | error e => rfl
    | ok oe =>
      cases oe with
      | none => exact ih
      | some ent => rw [ih]

theorem parseLines_append_entry : ∀ (dl : List Chars) (es : List Entry) (line : Chars) (e : Entry),
    parseLines dl = .ok es → parseLine line = .ok (some e) →
    parseLines (dl ++ [line, []]) = .ok (es ++ [e]) := by
  intro dl
  induction dl with
  | nil =>
    intro es line e hdl hline
    have hes : es = [] := by
      rw [parseLines] at hdl
      injection hdl with h
      exact h.symm
    subst hes
    rw [List.nil_append, parseLines, hline, parseLines, parseLine_blank, parseLines]
    simp
  | cons l ls ih =>
    intro es line e hdl hline
    rw [parseLines] at hdl
    rw [List.cons_append, parseLines]
    cases hp : parseLine l with
    | error err => rw [hp] at hdl; exact absurd hdl (by simp)
    | ok oe =>
      rw [hp] at hdl
      cases oe with
      | none => exact ih es line e hdl hline
      | some ent =>
        cases hq : parseLines ls with
        | error err => rw [hq] at hdl; exact absurd hdl (by simp)
        | ok es' =>
          rw [hq] at hdl
          injection hdl with h
          subst h
          rw [ih es' line e hq hline]
          simp

theorem parseLines_error_of_mem : ∀ (lines : List Chars) (l : Chars),
    l ∈ lines → parseLine l = .error () → parseLines lines = .error () := by
  intro lines
  induction lines with
  | nil => intro l hl _; exact absurd hl (by simp)
  | cons x xs ih =>
    intro l hl herr
    rcases List.mem_cons.mp hl with rfl | hmem
    · rw [parseLines, herr]
    · rw [parseLines]
      cases hp : parseLine x with
      | error e => rfl
      | ok oe =>
        cases oe with
        | none => exact ih l hmem herr
        | some ent => rw [ih l hmem herr]

theorem parseLines_skip : ∀ (pre : List Chars) (l : Chars) (suf : List Chars),
    parseLine l = .ok none → parseLines (pre ++ l :: suf) = parseLines (pre ++ suf) := by
  intro pre l suf hskip
  induction pre with
  | nil => rw [List.nil_append, parseLines, hskip, List.nil_append]
  | cons x xs ih =>
    rw [List.cons_append, List.cons_append, parseLines, parseLines, ih]

theorem foldSt_append : ∀ (xs ys : List Entry) (st : St),
    foldSt st (xs ++ ys) =
      match foldSt st xs with
      | .error e => .error e
      | .ok st' => foldSt st' ys := by
  intro xs
  induction xs with
  | nil => intro ys st; rw [List.nil_append, foldSt]
  | cons e es ih =>
    intro ys st
    rw [List.cons_append, foldSt, foldSt]
    cases ha : applyEntry st e with
    | error err => rfl
    | ok st' => exact ih ys st'

theorem find?_filter_ne {α : Type} : ∀ (fs : List (Chars × α)) (p q : Chars), q ≠ p →
    (fs.filter (fun r => !(r.1 == p))).find? (fun r => r.1 == q) =
      fs.find? (fun r => r.1 == q) := by
  intro fs p q hne
  induction fs with
  | nil => rfl
  | cons r rs ih =>
    by_cases hr : r.1 = p
    · have h1 : (!(r.1 == p)) = false := by simp [hr]
      have h2 : (r.1 == q) = false := by
        simp only [beq_eq_false_iff_ne]
        rw [hr]
        exact Ne.symm hne
      rw [List.filter_cons, h1]
      simp only [if_neg (by simp : ¬ (false = true))]
      rw [List.find?_cons, h2]
      exact ih
    · have h1 : (!(r.1 == p)) = true := by simp [hr]
      rw [List.filter_cons, h1, if_pos rfl]
      rw [List.find?_cons, List.find?_cons]
      cases hq : (r.1 == q) with
      | true => rfl
      | false => exact ih

theorem readF_setF_same (fs : Fs) (p c : Chars) : readF (setF fs p c) p = some c := by
  rw [readF, setF, List.find?_cons, (by simp : ((p, c).1 == p) = true)]

theorem readF_setF_ne (fs : Fs) (p q c : Chars) (h : q ≠ p) :
    readF (setF fs p c) q = readF fs q := by
  rw [readF, setF, List.find?_cons, (by simp [Ne.symm h] : ((p, c).1 == q) = false),
    find?_filter_ne fs p q h, readF]

theorem hasK_setK_same (st : St) (k : Chars) (v : Option Chars) : hasK (setK st k v) k = true := by
  rw [hasK, setK, List.any_cons]
  simp

theorem stateGet_setK_same (st : St) (k : Chars) (v : Option Chars) :
    stateGet (setK st k v) k = v := by
  rw [stateGet, setK, List.find?_cons, (by simp : ((k, v).1 == k) = true)]

/-- A log content is line-terminated when it is empty or ends with a newline
(every content ever produced by `log_operation` alone has this shape). -/
def Terminated (s : Chars) : Prop := s = [] ∨ s.getLast? = some '\n'

instance terminatedDecidable (s : Chars) : Decidable (Terminated s) :=
  inferInstanceAs (Decidable (s = [] ∨ s.getLast? = some '\n'))

theorem renderLine_no_nl (op : Op) (path : Chars) (chk : Option Chars)
    (hp : goodName path = true) (hc : ∀ c, chk = some c → goodName c = true) :
    hasChar '\n' (renderLine (opStr op) path chk) = false := by
  have h1 : hasChar '\n' (opStr op) = false := by cases op <;> decide
  have h2 : hasChar '\n' (chkSuffix chk) = false := by
    cases chk with
    | none => rfl
    | some k =>
      rw [chkSuffix, hasChar_append, goodName_no_nl (hc k rfl)]
      decide
  have hc1 : ((':' : Char) == '\n') = false := by decide
  have hc2 : ((' ' : Char) == '\n') = false := by decide
  rw [renderLine_eq, hasChar_append, h1, hasChar, hasChar, hasChar_append,
    goodName_no_nl hp, h2, hc1, hc2]
  rfl

theorem renderLine_no_cr (op : Op) (path : Chars) (chk : Option Chars)
    (hp : goodName path = true) (hc : ∀ c, chk = some c → goodName c = true) :
    hasChar '\r' (renderLine (opStr op) path chk) = false := by
  have h1 : hasChar '\r' (opStr op) = false := by cases op <;> decide
  have h2 : hasChar '\r' (chkSuffix chk) = false := by
    cases chk with
    | none => rfl
    | some k =>
      rw [chkSuffix, hasChar_append, goodName_no_cr (hc k rfl)]
      decide
  have hc1 : ((':' : Char) == '\r') = false := by decide
  have hc2 : ((' ' : Char) == '\r') = false := by decide
  rw [renderLine_eq, hasChar_append, h1, hasChar, hasChar, hasChar_append,
    goodName_no_cr hp, h2, hc1, hc2]
  rfl

theorem nlTranslate_render_nl (op : Op) (path : Chars) (chk : Option Chars)
    (hp : goodName path = true) (hc : ∀ c, chk = some c → goodName c = true) :
    nlTranslate (renderLine (opStr op) path chk ++ ['\n']) =
      renderLine (opStr op) path chk ++ ['\n'] := by
  apply nlTranslate_no_cr
  rw [hasChar_append, renderLine_no_cr op path chk hp hc]
  decide

theorem splitLines_render_nl (op : Op) (path : Chars) (chk : Option Chars)
    (hp : goodName path = true) (hc : ∀ c, chk = some c → goodName c = true) :
    splitLines (renderLine (opStr op) path chk ++ ['\n']) =
      [renderLine (opStr op) path chk, []] := by
  rw [splitLines, nlTranslate_render_nl op path chk hp hc]
  have h := splitLinesGo_no_nl (renderLine (opStr op) path chk) [] []
    (renderLine_no_nl op path chk hp hc)
  simpa [splitLinesGo] using h

/-- Appending a rendered entry to a line-terminated log that parses to `es`
produces a log that parses to `es` extended with exactly that entry. -/
theorem parse_after_append (oldLog : Option Chars) (es : List Entry) (op : Op) (path : Chars)
    (chk : Option Chars)
    (hp : goodName path = true)
    (hc : ∀ c, chk = some c → goodName c = true)
    (hd : op = Op.delete → chk = none)
    (hm : containsSub markerChars (renderLine (opStr op) path chk) = false)
    (hparse : operations_from_log oldLog = .ok es)
    (hterm : Terminated (oldLog.getD [])) :
    operations_from_log (some (oldLog.getD [] ++ renderLine (opStr op) path chk ++ ['\n'])) =
      .ok (es ++ [⟨op, path, chk⟩]) := by
  have hpl : parseLine (renderLine (opStr op) path chk) = .ok (some ⟨op, path, chk⟩) :=
    parseLine_render op path chk hp hc hd hm
  have hLines : splitLines (renderLine (opStr op) path chk ++ ['\n']) =
      [renderLine (opStr op) path chk, []] := splitLines_render_nl op path chk hp hc
  have hshort : ∀ es₀ : List Entry, es₀ = [] →
      operations_from_log (some (renderLine (opStr op) path chk ++ ['\n'])) =
        .ok (es₀ ++ [⟨op, path, chk⟩]) := by
    intro es₀ h₀
    subst h₀
    rw [operations_from_log, hLines, parseLines, hpl, parseLines, parseLine_blank, parseLines]
    simp
  cases oldLog with
  | none =>
    have hes : es = [] := by
      rw [operations_from_log] at hparse
      injection hparse with h
      exact h.symm
    simpa using hshort es hes
  | some old =>
    simp only [Option.getD] at hterm ⊢
    rcases hterm with hnil | hlast
    · subst hnil
      have hes : es = [] := by
        have hold : operations_from_log (some ([] : Chars)) = .ok ([] : List Entry) := by decide
        rw [hold] at hparse
        injection hparse with h
        exact h.symm
      simpa using hshort es hes
    · have hTlast : (nlTranslate old).getLast? = some '\n' := nlTranslate_last_nl old hlast
      have hgoLine : splitLinesGo ([] : Chars) (renderLine (opStr op) path chk ++ ['\n']) =
          [renderLine (opStr op) path chk, []] := by
        have h0 := hLines
        rw [splitLines, nlTranslate_render_nl op path chk hp hc] at h0
        exact h0
      have hsplitOld : splitLines (old ++ (renderLine (opStr op) path chk ++ ['\n'])) =
          (splitLines old).dropLast ++ [renderLine (opStr op) path chk, []] := by
        rw [splitLines, nlTranslate_append_term old _ hlast,
          nlTranslate_render_nl op path chk hp hc,
          splitLinesGo_append_term (nlTranslate old) [] _ hTlast]
        rw [show splitLinesGo ([] : Chars) (nlTranslate old) = splitLines old from rfl, hgoLine]
      have hne : splitLines old ≠ [] := splitLinesGo_ne_nil (nlTranslate old) []
      have hlastLine : splitLines old = (splitLines old).dropLast ++ [[]] := by
        have h1 : (splitLines old).getLast? = some [] :=
          splitLinesGo_last_nl (nlTranslate old) [] hTlast
        have h2 := List.dropLast_append_getLast (l := splitLines old) hne
        have h3 : (splitLines old).getLast hne = [] := by
          have := List.getLast?_eq_getLast (l := splitLines old) hne
          rw [h1] at this
          injection this with h
          exact h.symm
        conv_lhs => rw [← h2, h3]
      have hdl : parseLines ((splitLines old).dropLast) = .ok es := by
        have hfull : parseLines ((splitLines old).dropLast ++ [[]]) = .ok es := by
          rw [← hlastLine]
          rw [operations_from_log] at hparse
          exact hparse
        rwa [parseLines_append_blank] at hfull
      rw [operations_from_log, List.append_assoc, hsplitOld]
      exact parseLines_append_entry _ es _ _ hdl hpl

theorem gate_write {log : Option Chars} {st : St} (f : Chars) (c : Option Chars)
    (hst : file_operations_state log = .ok st) :
    is_duplicate_operation log .write f c = .ok (decide (stateGet st f = c)) := by
  simp only [is_duplicate_operation, hst]
  by_cases h : stateGet st f = c <;> simp [h]

theorem gate_delete {log : Option Chars} {st : St} (f : Chars) (c : Option Chars)
    (hst : file_operations_state log = .ok st) :
    is_duplicate_operation log .delete f c = .ok (!hasK st f) := by
  simp only [is_duplicate_operation, hst]
  cases hk : hasK st f <;> simp [hk]

theorem gate_append {log : Option Chars} {st : St} (f : Chars) (c : Option Chars)
    (hst : file_operations_state log = .ok st) :
    is_duplicate_operation log .append f c = .ok false := by
  simp only [is_duplicate_operation, hst]
  simp

/-- C1 (amended): write idempotence end to end.  If `p` is not the log file
itself, the log path has a non-empty dirname (so `os.makedirs` does not
raise), `p` and the digest are clean single-line tokens (non-empty, no
leading or trailing Python whitespace, no `" #"`, no `'\n'` or `'\r'`), the
rendered line does not contain the legacy marker, and the existing log is
line-terminated, then after a first `write_to_file(p, C)` that succeeds, the
identical second call is detected by the gate and returns the duplicate
message with the file system (hence both the target file and the operation
log) unchanged. -/
theorem write_to_file_idempotent (md5 : Chars → Chars) (logPath : Chars) (fs : Fs)
    (p text : Chars) (fs₁ : Fs)
    (hne : p ≠ logPath)
    (hlpd : pathDirname logPath ≠ [])
    (hp : goodName p = true)
    (hchk : goodName (md5 text) = true)
    (hm : containsSub markerChars (renderLine wKind p (some (md5 text))) = false)
    (hterm : Terminated ((readF fs logPath).getD []))
    (h1 : write_to_file md5 logPath fs p text = .ok (msgWriteOk, fs₁)) :
    write_to_file md5 logPath fs₁ p text = .ok (msgWriteDup, fs₁) := by
  simp only [write_to_file] at h1
  cases hg : is_duplicate_operation (readF fs logPath) .write p (some (md5 text)) with
  | error e =>
    rw [hg] at h1
    exact absurd h1 (by simp)
  | ok b =>
    simp only [hg] at h1
    cases b with
    | true =>
      exfalso
      injection h1 with h
      have hmsg : msgWriteDup = msgWriteOk := congrArg Prod.fst h
      exact absurd hmsg (by decide)
    | false =>
      by_cases hdp : pathDirname p = []
      case pos =>
        exfalso
        rw [if_pos hdp] at h1
        injection h1 with h
        have hmsg : msgMakedirsErr = msgWriteOk := congrArg Prod.fst h
        exact absurd hmsg (by decide)
      case neg =>
      rw [if_neg hdp] at h1
      injection h1 with h
      have hfs₁ : fs₁ = log_operation logPath (setF fs p text) wKind p (some (md5 text)) :=
        (congrArg Prod.snd h).symm
      have hstate : ∃ st₀, file_operations_state (readF fs logPath) = .ok st₀ := by
        rw [is_duplicate_operation] at hg
        cases hs : file_operations_state (readF fs logPath) with
        | error e => rw [hs] at hg; exact absurd hg (by simp)
        | ok st => exact ⟨st, rfl⟩
      obtain ⟨st₀, hst₀⟩ := hstate
      have hentries : ∃ es₀, operations_from_log (readF fs logPath) = .ok es₀ ∧
          foldSt [] es₀ = .ok st₀ := by
        rw [file_operations_state] at hst₀
        cases ho : operations_from_log (readF fs logPath) with
        | error e => rw [ho] at hst₀; exact absurd hst₀ (by simp)
        | ok es => rw [ho] at hst₀; exact ⟨es, rfl, hst₀⟩
      obtain ⟨es₀, hes₀, hfold₀⟩ := hentries
      subst hfs₁
      have hlog₁ : readF (log_operation logPath (setF fs p text) wKind p (some (md5 text)))
          logPath =
          some ((readF fs logPath).getD [] ++ renderLine wKind p (some (md5 text)) ++ ['\n']) := by
        rw [log_operation, if_neg hlpd, appendRaw, readF_setF_same, fileContent,
          readF_setF_ne fs p logPath text (Ne.symm hne), List.append_assoc]
      have hparse₂ : operations_from_log
          (some ((readF fs logPath).getD [] ++ renderLine wKind p (some (md5 text)) ++ ['\n'])) =
          .ok (es₀ ++ [⟨Op.write, p, some (md5 text)⟩]) :=
        parse_after_append (readF fs logPath) es₀ Op.write p (some (md5 text)) hp
          (by intro c hc; injection hc with h'; rw [← h']; exact hchk)
          (by intro h'; exact absurd h' (by decide))
          hm hes₀ hterm
      have hstate₂ : file_operations_state
          (some ((readF fs logPath).getD [] ++ renderLine wKind p (some (md5 text)) ++ ['\n'])) =
          .ok (setK st₀ p (some (md5 text))) := by
        simp only [file_operations_state, hparse₂, foldSt_append, hfold₀]
        simp [foldSt, applyEntry]
      have hgate₂ : is_duplicate_operation
          (some ((readF fs logPath).getD [] ++ renderLine wKind p (some (md5 text)) ++ ['\n']))
          .write p (some (md5 text)) = .ok true := by
        rw [gate_write p (some (md5 text)) hstate₂, stateGet_setK_same]
        simp
      simp only [write_to_file, hlog₁, hgate₂]

theorem stateGet_none_of_not_hasK : ∀ {st : St} {path : Chars}, hasK st path = false →
    stateGet st path = none := by
  intro st
  induction st with
  | nil => intro path _; rfl
  | cons r rs ih =>
    intro path h
    rw [hasK, List.any_cons, Bool.or_eq_false_iff] at h
    rw [stateGet, List.find?_cons, h.1]
    have hrs := ih h.2
    rw [stateGet] at hrs
    exact hrs

/-- C2 (corrected, counterexample): with a missing log the reconstructed
state is empty, yet a write probe with an absent (`None`) checksum reports a
duplicate, although the claim says the gate returns false whenever the path
is absent from the state. -/
theorem is_duplicate_write_gate_cx :
    file_operations_state none = .ok [] ∧ hasK [] aTxt = false ∧
    is_duplicate_operation none .write aTxt none = .ok true := by
  decide

/-- C2 (amended): the write gate returns true iff `state.get(path)` — which
is `None` both for an absent path and for a stored `None` checksum — equals
the supplied checksum exactly; consequently it returns false whenever the
path is absent and a checksum is actually supplied, but reports a duplicate
for an absent path probed with an absent checksum. -/
theorem is_duplicate_write_gate (log : Option Chars) (path : Chars) (chk : Option Chars)
    (st : St) (hst : file_operations_state log = .ok st) :
    is_duplicate_operation log .write path chk = .ok (decide (stateGet st path = chk)) ∧
    (hasK st path = false → ∀ c, chk = some c →
      is_duplicate_operation log .write path chk = .ok false) := by
  refine ⟨gate_write path chk hst, ?_⟩
  intro habs c hc
  subst hc
  rw [gate_write path (some c) hst, stateGet_none_of_not_hasK habs]
  simp

/-- C2 witness. -/
theorem is_duplicate_write_gate_witness :
    file_operations_state none = .ok [] ∧
    is_duplicate_operation none .write aTxt (some d41) = .ok false :=
  ⟨by decide,
   (is_duplicate_write_gate none aTxt (some d41) [] (by decide)).2 (by decide) d41 rfl⟩

/-- C3: the delete gate reports a duplicate exactly when the path is absent
from the reconstructed state; on the spec's concrete write-then-delete log
the state is empty, the delete probe reports true and the write probe with
the original digest reports false. -/
theorem is_duplicate_delete_gate :
    (∀ (log : Option Chars) (path : Chars) (st : St), file_operations_state log = .ok st →
      is_duplicate_operation log .delete path none = .ok (!hasK st path)) ∧
    (file_operations_state (some scenarioLog) = .ok [] ∧
     is_duplicate_operation (some scenarioLog) .delete aTxt none = .ok true ∧
     is_duplicate_operation (some scenarioLog) .write aTxt (some d41) = .ok false) := by
  refine ⟨?_, by decide, by decide, by decide⟩
  intro log path st hst
  exact gate_delete path none hst

/-- C3 witness. -/
theorem is_duplicate_delete_gate_witness :
    is_duplicate_operation (some scenarioLog) .delete aTxt none = .ok true :=
  is_duplicate_delete_gate.1 (some scenarioLog) aTxt [] (by decide)

/-- C4 (corrected, counterexample): under a nonexistent log the delete probe
reports a duplicate for any path, although the claim says the gate never
reports true under a missing log. -/
theorem missing_log_gate_cx :
    operations_from_log none = .ok [] ∧
    is_duplicate_operation none .delete aTxt none = .ok true := by
  decide

/-- C4 (amended): a missing log reads as an empty entry sequence (not an
error) and reconstructs to the empty state; under it the gate returns false
for every write probe carrying a checksum and for every append probe, while
every delete probe returns true (any path counts as already deleted) and a
write probe with an absent checksum also returns true. -/
theorem missing_log_empty_history (path : Chars) (c : Chars) (copt : Option Chars) :
    operations_from_log none = .ok [] ∧
    file_operations_state none = .ok [] ∧
    is_duplicate_operation none .write path (some c) = .ok false ∧
    is_duplicate_operation none .append path copt = .ok false ∧
    is_duplicate_operation none .delete path copt = .ok true ∧
    is_duplicate_operation none .write path none = .ok true := by
  have hst : file_operations_state none = .ok ([] : St) := by decide
  refine ⟨rfl, hst, ?_, ?_, ?_, ?_⟩
  · rw [gate_write path (some c) hst]
    simp [stateGet]
  · exact gate_append path copt hst
  · rw [gate_delete path copt hst]
    simp [hasK]
  · rw [gate_write path none hst]
    simp [stateGet]

/-- C1 (corrected, counterexample): the end-to-end idempotence claim fails
as stated.  Scenario A writes to the operation-log path itself: the first
call succeeds, and the identical second call again answers with the success
message (the truncating write corrupted the log line so the gate sees no
history).  Scenario B starts from a log whose content is not
newline-terminated: the appended entry merges into the last line, so the
second identical call is again not detected and performs the mutation and a
second log append. -/
theorem write_to_file_idempotent_cx :
    (write_to_file md5Stub logW [] logW (strChars "garbage") =
       .ok (msgWriteOk,
         [(logW, strChars "garbage" ++ renderLine wKind logW (some d41) ++ ['\n'])]) ∧
     Except.map (fun r => r.1)
       (write_to_file md5Stub logW
         [(logW, strChars "garbage" ++ renderLine wKind logW (some d41) ++ ['\n'])]
         logW (strChars "garbage")) = .ok msgWriteOk) ∧
    (Except.map (fun r => r.1)
       (write_to_file md5Stub logW [(logW, strChars "write: q #r")]
         (strChars "autogpt/p") (strChars "x")) = .ok msgWriteOk ∧
     Except.map (fun r => r.1)
       (write_to_file md5Stub logW
         [(logW, strChars "write: q #r" ++ renderLine wKind (strChars "autogpt/p") (some d41) ++ ['\n']),
          (strChars "autogpt/p", strChars "x")]
         (strChars "autogpt/p") (strChars "x")) = .ok msgWriteOk ∧
     write_to_file md5Stub logW [(logW, strChars "write: q #r")] (strChars "autogpt/p") (strChars "x") =
       .ok (msgWriteOk,
         [(logW, strChars "write: q #r" ++ renderLine wKind (strChars "autogpt/p") (some d41) ++ ['\n']),
          (strChars "autogpt/p", strChars "x")])) := by
  decide

/-- C1 witness: a clean first write into an empty workspace followed by the
identical call, which is answered by the duplicate message with the file
system unchanged. -/
theorem write_to_file_idempotent_witness :
    (aPath ≠ logW ∧ pathDirname logW ≠ [] ∧ goodName aPath = true ∧
     goodName (md5Stub (strChars "hello")) = true ∧
     containsSub markerChars (renderLine wKind aPath (some (md5Stub (strChars "hello")))) = false ∧
     Terminated ((readF ([] : Fs) logW).getD []) ∧
     write_to_file md5Stub logW [] aPath (strChars "hello") =
       .ok (msgWriteOk,
         [(logW, renderLine wKind aPath (some d41) ++ ['\n']), (aPath, strChars "hello")])) ∧
    write_to_file md5Stub logW
      [(logW, renderLine wKind aPath (some d41) ++ ['\n']), (aPath, strChars "hello")]
      aPath (strChars "hello") =
      .ok (msgWriteDup,
        [(logW, renderLine wKind aPath (some d41) ++ ['\n']), (aPath, strChars "hello")]) :=
  ⟨⟨by decide, by decide, by decide, by decide, by decide, by decide, by decide⟩,
   write_to_file_idempotent md5Stub logW [] aPath (strChars "hello")
     [(logW, renderLine wKind aPath (some d41) ++ ['\n']), (aPath, strChars "hello")]
     (by decide) (by decide) (by decide) (by decide) (by decide) (by decide) (by decide)⟩

/-- A concrete log with a line whose kind token is unknown. -/
def bogusLog : Chars := strChars "bogus: x\nwrite: b #c\n"

/-- C5 (corrected, counterexample): `bogusLog` contains the non-blank line
`bogus: x`, whose kind token is none of write/append/delete; the claim says
reading such a log propagates a parse error, but the reader silently skips
the line and returns the remaining entry. -/
theorem malformed_line_cx :
    operations_from_log (some bogusLog) =
      .ok [⟨.write, strChars "b", some (strChars "c")⟩] := by
  decide

/-- C5 (amended): a non-blank line (after legacy-marker stripping and
trimming) with no `": "` separator makes the whole read abort with a parse
error, and any such error anywhere in the log aborts the whole read; but a
line that has the separator with an unrecognised kind token is silently
skipped, contributing no entry and no error. -/
theorem malformed_line_handling :
    (∀ (lines : List Chars) (l : Chars), l ∈ lines → parseLine l = .error () →
       parseLines lines = .error ()) ∧
    (∀ l : Chars, pyStrip (pyReplace l markerChars []) ≠ [] →
       splitFirst sepColon (pyStrip (pyReplace l markerChars [])) = none →
       parseLine l = .error ()) ∧
    (∀ (l op₀ tail : Chars),
       splitFirst sepColon (pyStrip (pyReplace l markerChars [])) = some (op₀, tail) →
       pyStrip op₀ ≠ wKind → pyStrip op₀ ≠ aKind → pyStrip op₀ ≠ dKind →
       parseLine l = .ok none) ∧
    (∀ (pre : List Chars) (l : Chars) (suf : List Chars), parseLine l = .ok none →
       parseLines (pre ++ l :: suf) = parseLines (pre ++ suf)) := by
  refine ⟨parseLines_error_of_mem, ?_, ?_, parseLines_skip⟩
  · intro l h1 h2
    simp only [parseLine]
    rw [if_neg h1, h2]
  · intro l op₀ tail h3 h4 h5 h6
    have h1 : pyStrip (pyReplace l markerChars []) ≠ [] := by
      intro h
      rw [h] at h3
      exact absurd h3 (by simp [splitFirst])
    simp only [parseLine]
    rw [if_neg h1]
    simp only [h3]
    rw [if_neg (by simp [h4, h5]), if_neg h6]

/-- C5 witness: a separator-less line aborts the read; an unknown-kind line
is skipped without affecting the rest. -/
theorem malformed_line_handling_witness :
    parseLines [strChars "bogus x"] = .error () ∧
    parseLine (strChars "bogus: x") = .ok none ∧
    parseLines [strChars "bogus: x", strChars "delete: y"] =
      parseLines [strChars "delete: y"] :=
  ⟨malformed_line_handling.1 [strChars "bogus x"] (strChars "bogus x") (by simp) (by decide),
   malformed_line_handling.2.2.1 (strChars "bogus: x") (strChars "bogus") (strChars "x")
     (by decide) (by decide) (by decide) (by decide),
   malformed_line_handling.2.2.2 [] (strChars "bogus: x") [strChars "delete: y"] (by decide)⟩

/-- C6: the reconstruction fold applies entries in strict file order —
write/append entries set `state[path] = checksum`, delete entries remove the
key — and a delete entry whose path is absent from the state accumulated so
far makes `file_operations_state` raise (`KeyError`) instead of ignoring the
entry. -/
theorem fold_delete_untracked (st₀ : St) (pre : List Entry) (e : Entry) (suf : List Entry)
    (st : St) (hpre : foldSt st₀ pre = .ok st) :
    (e.op = .delete → hasK st e.path = false → foldSt st₀ (pre ++ e :: suf) = .error ()) ∧
    (e.op = .delete → hasK st e.path = true →
       foldSt st₀ (pre ++ e :: suf) = foldSt (eraseK st e.path) suf) ∧
    (e.op ≠ .delete → foldSt st₀ (pre ++ e :: suf) = foldSt (setK st e.path e.checksum) suf) := by
  have hbase : foldSt st₀ (pre ++ e :: suf) =
      match applyEntry st e with
      | .error err => .error err
      | .ok st' => foldSt st' suf := by
    simp only [foldSt_append, hpre]
    rw [foldSt]
  refine ⟨?_, ?_, ?_⟩
  · intro hop habs
    rw [hbase]
    simp [applyEntry, hop, habs]
  · intro hop hkey
    rw [hbase]
    simp [applyEntry, hop, hkey]
  · intro hop
    rw [hbase]
    cases he : e.op with
    | write => simp [applyEntry, he]
    | append => simp [applyEntry, he]
    | delete => exact absurd he hop

/-- C6 witness: the fold of a single write entry, then the abort on a delete
of a path the accumulated state does not track. -/
theorem fold_delete_untracked_witness :
    foldSt [] [⟨Op.write, aTxt, some d41⟩] = .ok [(aTxt, some d41)] ∧
    foldSt [] ([⟨Op.write, aTxt, some d41⟩] ++ ⟨Op.delete, strChars "b.txt", none⟩ :: []) =
      .error () :=
  ⟨by decide,
   (fold_delete_untracked [] [⟨Op.write, aTxt, some d41⟩] ⟨Op.delete, strChars "b.txt", none⟩
     [] [(aTxt, some d41)] (by decide)).1 rfl (by decide)⟩

theorem fileContent_setF_same (fs : Fs) (p c : Chars) : fileContent (setF fs p c) p = c := by
  rw [fileContent, readF_setF_same]
  rfl

theorem fileContent_setF_ne (fs : Fs) (p q c : Chars) (h : q ≠ p) :
    fileContent (setF fs p c) q = fileContent fs q := by
  rw [fileContent, readF_setF_ne fs p q c h, fileContent]

/-- The line `log_operation` appends after an append whose resulting file
content (as stored on disk) is `content`; the checksum is taken over the
universal-newline text-mode re-read of that content. -/
def appendLogLine (md5 : Chars → Chars) (p content : Chars) : Chars :=
  renderLine aKind p (some (md5 (nlTranslate content))) ++ ['\n']

theorem append_once (md5 : Chars → Chars) (logPath : Chars) (fs : Fs) (p text : Chars)
    (hdp : pathDirname p ≠ []) (hdl : pathDirname logPath ≠ []) :
    append_to_file md5 logPath fs p text true =
      (msgAppendOk, setF (appendRaw fs p text) logPath
        (fileContent (appendRaw fs p text) logPath ++
          appendLogLine md5 p (fileContent fs p ++ text))) := by
  simp only [append_to_file, if_neg hdp, log_operation, if_neg hdl, appendLogLine]
  rw [show fileContent (appendRaw fs p text) p = fileContent fs p ++ text from
    fileContent_setF_same fs p (fileContent fs p ++ text)]
  rfl

theorem append_once_obs (md5 : Chars → Chars) (logPath : Chars) (fs : Fs) (p text : Chars)
    (hdp : pathDirname p ≠ []) (hdl : pathDirname logPath ≠ []) :
    ∃ fs₁ : Fs,
      append_to_file md5 logPath fs p text true = (msgAppendOk, fs₁) ∧
      readF fs₁ p = some (fileContent fs p ++ text ++
        (if p = logPath then appendLogLine md5 p (fileContent fs p ++ text) else [])) ∧
      readF fs₁ logPath = some (fileContent fs logPath ++ (if p = logPath then text else []) ++
        appendLogLine md5 p (fileContent fs p ++ text)) := by
  refine ⟨_, append_once md5 logPath fs p text hdp hdl, ?_, ?_⟩
  · by_cases h : p = logPath
    · subst h
      rw [readF_setF_same, if_pos rfl, appendRaw,
        fileContent_setF_same fs p (fileContent fs p ++ text), List.append_assoc]
    · rw [readF_setF_ne _ _ _ _ h, if_neg h, appendRaw, readF_setF_same, List.append_nil]
  · rw [readF_setF_same]
    by_cases h : p = logPath
    · subst h
      rw [if_pos rfl, appendRaw, fileContent_setF_same fs p (fileContent fs p ++ text),
        List.append_assoc]
    · rw [if_neg h, appendRaw, fileContent_setF_ne fs p logPath _ (Ne.symm h), List.append_nil]

/-- C7 (corrected, counterexample): `append_to_file` on a bare filename such
as `"a.txt"` does not append at all — `os.makedirs(os.path.dirname(filename),
exist_ok = True)` is called with the empty dirname and raises
`FileNotFoundError`, so the call returns the errno-2 error string and leaves
the file system unchanged. -/
theorem append_to_file_never_deduped_cx :
    append_to_file md5Stub logW [] (strChars "a.txt") (strChars "x") true =
      (msgMakedirsErr, []) := by
  decide

/-- C7 (amended): append is never deduplicated, provided the target path and
the log path each have a non-empty dirname (so `os.makedirs` does not raise).
Two successive identical `append_to_file` calls both return the success
message, both perform the underlying file append (the target grows by `text`
each time, plus the unavoidable log line when the target is the log file
itself), and both append exactly one `append` entry line to the operation
log; `append_to_file` never consults the duplicate gate. -/
theorem append_to_file_never_deduped (md5 : Chars → Chars) (logPath : Chars) (fs : Fs)
    (p text : Chars) (hdp : pathDirname p ≠ []) (hdl : pathDirname logPath ≠ []) :
    ∃ fs₁ fs₂ : Fs,
      append_to_file md5 logPath fs p text true = (msgAppendOk, fs₁) ∧
      append_to_file md5 logPath fs₁ p text true = (msgAppendOk, fs₂) ∧
      readF fs₁ p = some (fileContent fs p ++ text ++
        (if p = logPath then appendLogLine md5 p (fileContent fs p ++ text) else [])) ∧
      readF fs₁ logPath = some (fileContent fs logPath ++ (if p = logPath then text else []) ++
        appendLogLine md5 p (fileContent fs p ++ text)) ∧
      readF fs₂ p = some (fileContent fs₁ p ++ text ++
        (if p = logPath then appendLogLine md5 p (fileContent fs₁ p ++ text) else [])) ∧
      readF fs₂ logPath = some (fileContent fs₁ logPath ++ (if p = logPath then text else []) ++
        appendLogLine md5 p (fileContent fs₁ p ++ text)) := by
  obtain ⟨fs₁, h1, o1p, o1l⟩ := append_once_obs md5 logPath fs p text hdp hdl
  obtain ⟨fs₂, h2, o2p, o2l⟩ := append_once_obs md5 logPath fs₁ p text hdp hdl
  exact ⟨fs₁, fs₂, h1, h2, o1p, o1l, o2p, o2l⟩

/-- C7 witness: two identical appends of `"x"` to `autogpt/a.txt` against an
empty file system both succeed, grow the target, and each log one entry. -/
theorem append_to_file_never_deduped_witness :
    (pathDirname aPath ≠ [] ∧ pathDirname logW ≠ []) ∧
    ∃ fs₁ fs₂ : Fs,
      append_to_file md5Stub logW [] aPath (strChars "x") true = (msgAppendOk, fs₁) ∧
      append_to_file md5Stub logW fs₁ aPath (strChars "x") true = (msgAppendOk, fs₂) ∧
      readF fs₁ aPath = some (fileContent [] aPath ++ strChars "x" ++
        (if aPath = logW then appendLogLine md5Stub aPath
          (fileContent [] aPath ++ strChars "x") else [])) ∧
      readF fs₁ logW = some (fileContent [] logW ++ (if aPath = logW then strChars "x" else []) ++
        appendLogLine md5Stub aPath (fileContent [] aPath ++ strChars "x")) ∧
      readF fs₂ aPath = some (fileContent fs₁ aPath ++ strChars "x" ++
        (if aPath = logW then appendLogLine md5Stub aPath
          (fileContent fs₁ aPath ++ strChars "x") else [])) ∧
      readF fs₂ logW = some (fileContent fs₁ logW ++ (if aPath = logW then strChars "x" else []) ++
        appendLogLine md5Stub aPath (fileContent fs₁ aPath ++ strChars "x")) :=
  ⟨⟨by decide, by decide⟩,
   append_to_file_never_deduped md5Stub logW [] aPath (strChars "x")
     (by decide) (by decide)⟩

/-- C8 (corrected, counterexample): the universal round trip fails.  Logging
a write of path `a #b` with no checksum reads back as path `a` with checksum
`b`, and logging a delete with a checksum folds the checksum into the path. -/
theorem log_round_trip_cx :
    operations_from_log (readF (log_operation logW [] wKind (strChars "a #b") none) logW) =
      .ok [⟨.write, strChars "a", some (strChars "b")⟩] ∧
    operations_from_log
        (readF (log_operation logW [] dKind (strChars "a") (some (strChars "b"))) logW) =
      .ok [⟨.delete, strChars "a #b", none⟩] := by
  decide

/-- C8 (amended): the log format round-trips when the log path has a
non-empty dirname, the path and any checksum are non-empty single-line
tokens (no leading or trailing Python whitespace, no `'\n'` or `'\r'`) with
no occurrence of the checksum marker `" #"`, the rendered line does not
contain the legacy marker, delete entries carry no checksum, and the entry
is appended to a line-terminated log that itself parses: the new log parses
to the old entries plus exactly the logged `(kind, path, checksum)`
entry. -/
theorem log_round_trip (logPath : Chars) (fs : Fs) (op : Op) (path : Chars) (chk : Option Chars)
    (es : List Entry)
    (hdl : pathDirname logPath ≠ [])
    (hp : goodName path = true)
    (hc : ∀ c, chk = some c → goodName c = true)
    (hd : op = Op.delete → chk = none)
    (hm : containsSub markerChars (renderLine (opStr op) path chk) = false)
    (hparse : operations_from_log (readF fs logPath) = .ok es)
    (hterm : Terminated (fileContent fs logPath)) :
    operations_from_log (readF (log_operation logPath fs (opStr op) path chk) logPath) =
      .ok (es ++ [⟨op, path, chk⟩]) := by
  have hlog : readF (log_operation logPath fs (opStr op) path chk) logPath =
      some (fileContent fs logPath ++ renderLine (opStr op) path chk ++ ['\n']) := by
    rw [log_operation, if_neg hdl, appendRaw, readF_setF_same, List.append_assoc]
  rw [hlog]
  exact parse_after_append (readF fs logPath) es op path chk hp hc hd hm hparse hterm

/-- C8 witness: a write entry appended to a fresh (missing) log reads back
identically. -/
theorem log_round_trip_witness :
    (pathDirname logW ≠ [] ∧ goodName aTxt = true ∧
      operations_from_log (readF ([] : Fs) logW) = .ok [] ∧
      Terminated (fileContent [] logW)) ∧
    operations_from_log (readF (log_operation logW [] (opStr Op.write) aTxt (some d41)) logW) =
      .ok [⟨Op.write, aTxt, some d41⟩] :=
  ⟨⟨by decide, by decide, by decide, by decide⟩,
   log_round_trip logW [] Op.write aTxt (some d41) [] (by decide) (by decide)
     (by intro c hc; injection hc with h'; rw [← h']; decide)
     (by intro h'; exact absurd h' (by decide))
     (by decide) (by decide) (by decide)⟩

/-- C9 (code bug): on `"abcdef"` with `max_length = 3` and `overlap = 0` the
windows are `"ab"` and `"def"` — the character at index 2 is in no chunk, so
the chunks do not cover the content and their concatenation differs from it.
The slice bound `end + overlap - 1` in the source drops one character from
every non-final chunk. -/
theorem split_file_drops_characters :
    split_file (strChars "abcdef") 3 0 = [strChars "ab", strChars "def"] ∧
    List.flatten (split_file (strChars "abcdef") 3 0) ≠ strChars "abcdef" := by
  decide

theorem take_append_left {α : Type} : ∀ (a b : List α) (n : Nat), n ≤ a.length →
    (a ++ b).take n = a.take n := by
  intro a
  induction a with
  | nil =>
    intro b n h
    simp at h
    simp [h]
  | cons x xs ih =>
    intro b n h
    cases n with
    | zero => rfl
    | succ m =>
      rw [List.cons_append, List.take_succ_cons, List.take_succ_cons,
        ih b m (by simpa using h)]

/-- C10: `rename_file` never reports success.  When the source exists the
rename is carried out on disk but the success f-string evaluates the unbound
name `old_name`, so the `NameError` is caught and an error string is
returned; when the source is missing the not-found message is returned and
nothing changes; no input yields a message beginning with the success text
`File renamed from '`. -/
theorem rename_file_never_reports_success (fs : Fs) (oldPath newPath : Chars) :
    (∀ content, readF fs oldPath = some content →
       rename_file fs oldPath newPath =
         (msgRenameErr oldPath newPath, setF (delF fs oldPath) newPath content)) ∧
    (readF fs oldPath = none →
       rename_file fs oldPath newPath = (msgRenameNotFound oldPath, fs)) ∧
    (∀ rest : Chars, (rename_file fs oldPath newPath).1 ≠ msgRenamedStart ++ rest) := by
  refine ⟨?_, ?_, ?_⟩
  · intro content h
    simp only [rename_file, h]
  · intro h
    simp only [rename_file, h]
  · intro rest heq
    have h6 : ((rename_file fs oldPath newPath).1).take 6 = (msgRenamedStart ++ rest).take 6 := by
      rw [heq]
    have hr : (msgRenamedStart ++ rest).take 6 = strChars "File r" := by
      rw [take_append_left _ _ 6 (by decide)]
      decide
    rw [hr] at h6
    cases h : readF fs oldPath with
    | some content =>
      rw [rename_file] at h6
      simp only [h, msgRenameErr, List.append_assoc] at h6
      rw [take_append_left (strChars "Error renaming file '") _ 6 (by decide)] at h6
      exact absurd h6 (by decide)
    | none =>
      rw [rename_file] at h6
      simp only [h, msgRenameNotFound, List.append_assoc] at h6
      rw [take_append_left (strChars "File '") _ 6 (by decide)] at h6
      exact absurd h6 (by decide)

/-- C10 witness: a rename of an existing file returns the `NameError` text
while the file moved on disk; a rename of a missing file returns the
not-found message. -/
theorem rename_file_never_reports_success_witness :
    (readF [(aTxt, strChars "x")] aTxt = some (strChars "x") ∧
     rename_file [(aTxt, strChars "x")] aTxt (strChars "b.txt") =
       (msgRenameErr aTxt (strChars "b.txt"),
        setF (delF [(aTxt, strChars "x")] aTxt) (strChars "b.txt") (strChars "x"))) ∧
    (rename_file ([] : Fs) aTxt (strChars "b.txt")).1 ≠ msgRenamedStart ++ strChars "abc" :=
  ⟨⟨by decide,
    (rename_file_never_reports_success [(aTxt, strChars "x")] aTxt (strChars "b.txt")).1
      (strChars "x") (by decide)⟩,
   (rename_file_never_reports_success [] aTxt (strChars "b.txt")).2.2 (strChars "abc")⟩
